import Mathlib

/-!
Shallow embedding of the data-collection pipeline in
`data_collection_tools.py` (exchange scraping, record normalization,
exchange filtering, per-address transaction-history fetching), together
with theorems checking the specification's claims against it.

Modelling conventions:
* Python strings are `String`; the cell texts manipulated by the
  normalizer are worked on as `List Char`.
* `float(...)` is modelled on the fragment actually reachable here
  (unsigned decimal literals); a `ValueError` is `none`.
* `pd.concat` of an empty list raises `ValueError("No objects to
  concatenate")`; raised exceptions are `Except.error` values.
* The two unbounded `while` loops are embedded as fuel-indexed
  structural recursion; a fuel-stability theorem expresses that the
  transaction-paging loop has terminated (its value no longer depends
  on the fuel) once the fuel covers the 10,000-record cap.
* HTTP is abstracted into a page-indexed oracle: for the scraper, the
  extracted row set of each listing page; for the fetcher, the JSON
  response for each (address, page) request.
-/

namespace EthPrice

/-- One scraped HTML table row: the four cell texts, positionally
(address, name, balance text, transaction-count text). -/
structure RawRow where
  c0 : String
  c1 : String
  c2 : String
  c3 : String
deriving Repr, DecidableEq

/-- One row of the formatted exchange DataFrame produced by
`_format_exchange_data`: columns address, name, balance, txn_count.
The two numeric columns are modelled as exact rationals. -/
structure ExchangeRecord where
  address : String
  name : String
  balance : ℚ
  txn_count : ℚ
deriving Repr, DecidableEq

/-- Python `str.strip(chars)` on char lists: remove from both ends every
character that occurs in `chars` (a character SET, not a literal). -/
def pyStrip (l : List Char) (chars : List Char) : List Char :=
  ((l.dropWhile (chars.contains ·)).reverse.dropWhile (chars.contains ·)).reverse

/-- The characters of the strip argument " Ether" in
`str.strip(" Ether")` at line 106 of the source. -/
def etherChars : List Char := [' ', 'E', 't', 'h', 'e', 'r']

/-- Base-10 value of a digit list, most significant first. -/
def digitsVal (l : List Char) : ℕ :=
  l.foldl (fun acc c => 10 * acc + (c.toNat - 48)) 0

/-- Python `float(s)` modelled on the fragment reachable from the
normalizer: an unsigned decimal literal, either all digits or
`digits.digits` (one point, either side possibly empty but not both).
Any other input raises `ValueError`, modelled as `none`. Values are
exact rationals. -/
def pythonFloat (l : List Char) : Option ℚ :=
  if !l.isEmpty && l.all Char.isDigit then
    some ((digitsVal l : ℕ) : ℚ)
  else
    match l.splitOn '.' with
    | [ip, fp] =>
      if (!ip.isEmpty || !fp.isEmpty) && ip.all Char.isDigit && fp.all Char.isDigit then
        some ((digitsVal ip : ℚ) + (digitsVal fp : ℚ) / (10 : ℚ) ^ fp.length)
      else none
    | _ => none

/-- The balance normalizer of `_format_exchange_data` (line 106):
`float(str.strip(" Ether").replace(",", ""))` — strip the character set
" Ether" from both ends, delete every comma, then parse. -/
def parseBalance (s : String) : Option ℚ :=
  pythonFloat ((pyStrip s.toList etherChars).filter (fun c => c != ','))

/-- The txn_count normalizer of `_format_exchange_data` (line 107):
`float(str.replace(",", ""))`. -/
def parseTxnCount (s : String) : Option ℚ :=
  pythonFloat (s.toList.filter (fun c => c != ','))

/-- Positional mapping of one raw data row to an `ExchangeRecord`
(columns address, name, balance, txn_count, in that order);
`none` when a numeric cell raises `ValueError`. -/
def formatRow (r : RawRow) : Option ExchangeRecord :=
  match parseBalance r.c2 with
  | none => none
  | some b =>
    match parseTxnCount r.c3 with
    | none => none
    | some t => some ⟨r.c0, r.c1, b, t⟩

/-- Sequential `Option`-map: first failure (raised exception) aborts. -/
def mapOptionList {α β : Type} (f : α → Option β) : List α → Option (List β)
  | [] => some []
  | a :: l =>
    match f a with
    | none => none
    | some b =>
      match mapOptionList f l with
      | none => none
      | some bs => some (b :: bs)

/-- `_format_exchange_data(rows)`: discard the first row unconditionally
(`rows[1:][:]`), map the remaining rows positionally onto the four
columns, and normalize the two numeric columns; a parse failure anywhere
propagates as an uncaught exception (`none`). -/
def _format_exchange_data (rows : List RawRow) : Option (List ExchangeRecord) :=
  mapOptionList formatRow (rows.drop 1)

/-- Message of the `ValueError` pandas raises for `pd.concat([])`. -/
def concatEmptyMsg : String := "No objects to concatenate"

/-- Message of the `ValueError` raised by `float()` on non-numeric text. -/
def floatParseMsg : String := "could not convert string to float"

/-- The scraping loop of `scrape_exchanges` (lines 119-130), abstracted
over the extracted row set `fetch p` of listing page `p`. Returns the
list of requested page numbers and either the per-page formatted tables
in fetch order or the raised exception. `fuel` bounds how many
iterations of the unbounded source loop are modelled. -/
def scrapeLoop (fetch : ℕ → List RawRow) : ℕ → ℕ → List ℕ × Except String (List (List ExchangeRecord))
  | _, 0 => ([], Except.ok [])
  | page, fuel + 1 =>
    let rows := fetch page
    if rows.length ≤ 2 then
      ([page], Except.ok [])
    else
      match _format_exchange_data rows with
      | none => ([page], Except.error floatParseMsg)
      | some tbl =>
        let rest := scrapeLoop fetch (page + 1) fuel
        (page :: rest.1, rest.2.map (tbl :: ·))

/-- `scrape_exchanges` (lines 110-135): page through the listing
starting at page 1, then `pd.concat` the collected fragments (raising
on an empty fragment list). Returns the requested pages and the result
or raised exception. -/
def scrape_exchanges (fetch : ℕ → List RawRow) (fuel : ℕ) :
    List ℕ × Except String (List ExchangeRecord) :=
  let r := scrapeLoop fetch 1 fuel
  (r.1, r.2.bind (fun pages => if pages.isEmpty then Except.error concatEmptyMsg else Except.ok pages.flatten))

/-- Elementwise `series > threshold` mask, as pandas computes
`exhanges_df['balance'] > min_balance`. -/
def seriesGtMask (vals : List ℚ) (threshold : ℚ) : List Bool :=
  vals.map (fun v => decide (threshold < v))

/-- Elementwise conjunction of two boolean masks (`&` on pandas Series). -/
def maskAnd (m1 m2 : List Bool) : List Bool :=
  List.zipWith (· && ·) m1 m2

/-- Boolean-mask row selection `df[mask]`: keep, in order, the rows
whose mask entry is true. -/
def maskSelect {α : Type} (rows : List α) (mask : List Bool) : List α :=
  (List.zip rows mask).filterMap (fun p => if p.2 then some p.1 else none)

/-- The row-selection step of `filter_top_exchange_addresses`
(lines 150-152): build the two strict-threshold masks, conjoin them,
and select the surviving rows. -/
def filter_exchange_rows (df : List ExchangeRecord) (min_balance min_txn_count : ℚ) :
    List ExchangeRecord :=
  let balance_condition := seriesGtMask (df.map (·.balance)) min_balance
  let txn_condition := seriesGtMask (df.map (·.txn_count)) min_txn_count
  maskSelect df (maskAnd balance_condition txn_condition)

/-- `filter_top_exchange_addresses` (line 152): the address column of
the mask-selected rows. Default thresholds in the source are 2000 and
400000. -/
def filter_top_exchange_addresses (df : List ExchangeRecord) (min_balance min_txn_count : ℚ) :
    List String :=
  (filter_exchange_rows df min_balance min_txn_count).map (·.address)

/-- Default `min_balance` of `filter_top_exchange_addresses`. -/
def defaultMinBalance : ℚ := 2000

/-- Default `min_txn_count` of `filter_top_exchange_addresses`. -/
def defaultMinTxnCount : ℚ := 400000

/-- JSON body of one transaction-list response: `status`, `result`
(the transaction array, its entries left opaque of type `α`), and
`message`. -/
structure EsResponse (α : Type) where
  status : String
  result : List α
  message : String

/-- The per-address paging loop of `get_txn_history` (lines 173-183),
abstracted over the response `resp p` to the page-`p` request. Returns
the list of page numbers actually requested and the successfully
fetched pages in fetch order. The guard `page * offset ≤ 10000` is
checked before each request; a response status other than "1" breaks
the loop (the failing request still counts as issued). -/
def txnLoop {α : Type} (resp : ℕ → EsResponse α) (offset : ℕ) : ℕ → ℕ → List ℕ × List (List α)
  | _, 0 => ([], [])
  | page, fuel + 1 =>
    if page * offset ≤ 10000 then
      let r := resp page
      if r.status != "1" then
        ([page], [])
      else
        let rest := txnLoop resp offset (page + 1) fuel
        (page :: rest.1, r.result :: rest.2)
    else ([], [])

/-- Fuel sufficient for the paging loop to reach its hard stop from
page 1 when `offset` is positive. -/
def txnFuel (offset : ℕ) : ℕ := 10000 / offset + 1

/-- Requests issued and pages collected for one address. -/
def fetch_address_txns {α : Type} (resp : ℕ → EsResponse α) (offset : ℕ) :
    List ℕ × List (List α) :=
  txnLoop resp offset 1 (txnFuel offset)

/-- Sequential `Except`-map: the first raised exception aborts the
whole traversal. -/
def mapExceptList {α β : Type} (f : α → Except String β) : List α → Except String (List β)
  | [] => Except.ok []
  | a :: l =>
    match f a with
    | Except.error e => Except.error e
    | Except.ok b =>
      match mapExceptList f l with
      | Except.error e => Except.error e
      | Except.ok bs => Except.ok (b :: bs)

/-- `get_txn_history` (lines 154-185), abstracted over the response
oracle `resp a p` for address `a` and page `p`: for each address in
order, page through its transactions and `pd.concat` the collected
pages (raising `ValueError` on an empty page list); the resulting
dictionary is the address-keyed association list. -/
def get_txn_history {α : Type} (addresses : List String) (resp : String → ℕ → EsResponse α)
    (offset : ℕ) : Except String (List (String × List α)) :=
  mapExceptList
    (fun a =>
      let pages := (fetch_address_txns (resp a) offset).2
      if pages.isEmpty then Except.error concatEmptyMsg
      else Except.ok (a, pages.flatten))
    addresses

/-- A comma-grouped digit string: nonempty, every character a digit or
a comma, and the first and last characters digits. -/
def isCommaGrouped (l : List Char) : Bool :=
  !l.isEmpty &&
  l.all (fun c => c.isDigit || c == ',') &&
  l.head?.any Char.isDigit &&
  l.getLast?.any Char.isDigit

/-- The fragments the scraping loop collected, when it raised nothing
(empty when it did). -/
def scrapedFragments (fetch : ℕ → List RawRow) (fuel : ℕ) : List (List ExchangeRecord) :=
  ((scrapeLoop fetch 1 fuel).2.toOption).getD []

/-- Sample header row for concrete instances. -/
def stubHeader : RawRow := ⟨"", "", "", ""⟩

/-- Sample data row for concrete instances. -/
def stubData1 : RawRow := ⟨"0xA", "Ex A", "2,500 Ether", "500,000"⟩

/-- Sample data row for concrete instances. -/
def stubData2 : RawRow := ⟨"0xB", "Ex B", "1,000 Ether", "450,000"⟩

/-- Formatted record of `stubData1`. -/
def stubRec1 : ExchangeRecord := ⟨"0xA", "Ex A", 2500, 500000⟩

/-- Formatted record of `stubData2`. -/
def stubRec2 : ExchangeRecord := ⟨"0xB", "Ex B", 1000, 450000⟩

/-- A 3-row scraped page: header plus two data rows. -/
def sampleRows : List RawRow := [stubHeader, stubData1, stubData2]

/-- The table `_format_exchange_data` produces from `sampleRows`. -/
def sampleTable : List ExchangeRecord := [stubRec1, stubRec2]

/-- Stub listing source: three full pages (3 extracted rows each) and
then a 2-row page forever. -/
def stubFetch : ℕ → List RawRow :=
  fun p => if p ≤ 3 then sampleRows else [stubHeader, stubData1]

/-- The concatenated table scraped from `stubFetch`. -/
def stubResult : List ExchangeRecord := sampleTable ++ sampleTable ++ sampleTable

/-- Stub listing source whose very first page has no extracted rows. -/
def emptyFetch : ℕ → List RawRow := fun _ => []

/-- Stub transaction endpoint always succeeding with one transaction. -/
def okResp : ℕ → EsResponse ℕ := fun p => ⟨"1", [p], "OK"⟩

/-- Stub transaction endpoint always reporting failure status "0". -/
def failResp : String → ℕ → EsResponse ℕ := fun _ _ => ⟨"0", [], "NOTOK"⟩

/-! Helper lemmas. -/

/-- Boolean-mask selection against two conjoined elementwise masks is
ordinary predicate filtering. -/
lemma maskSelect_and_maps {α : Type} (f g : α → Bool) :
    ∀ l : List α, maskSelect l (maskAnd (l.map f) (l.map g)) = l.filter (fun a => f a && g a) := by
  intro l
  induction l with
  | nil => rfl
  | cons a t ih =>
    simp only [maskSelect, maskAnd] at ih ⊢
    simp only [List.map_cons, List.zipWith_cons_cons, List.zip_cons_cons,
      List.filterMap_cons, List.filter_cons]
    cases hfa : (f a && g a)
    · simp only [if_neg Bool.false_ne_true]
      exact ih
    · simp only [if_pos rfl]
      exact congrArg (a :: ·) ih

/-- The pandas mask pipeline of the filter equals a single strict
two-threshold row filter. -/
lemma filter_exchange_rows_eq_filter (df : List ExchangeRecord) (b t : ℚ) :
    filter_exchange_rows df b t =
      df.filter (fun r => decide (b < r.balance) && decide (t < r.txn_count)) := by
  unfold filter_exchange_rows seriesGtMask
  rw [List.map_map, List.map_map]
  exact maskSelect_and_maps _ _ df

/-- No character of the strip set " Ether" is a digit. -/
lemma mem_etherChars_not_digit : ∀ c ∈ etherChars, c.isDigit = false := by
  intro c hc
  fin_cases hc <;> rfl

/-- A digit is never removed by the " Ether" strip set. -/
lemma digit_contains_false {c : Char} (h : c.isDigit = true) : etherChars.contains c = false := by
  by_contra hc
  rw [Bool.not_eq_false] at hc
  have hmem : c ∈ etherChars := by simpa using hc
  rw [mem_etherChars_not_digit c hmem] at h
  exact Bool.false_ne_true h

/-- dropWhile removes nothing when the head fails the predicate. -/
lemma dropWhile_eq_self (p : Char → Bool) (m : List Char)
    (h : ∀ x, m.head? = some x → p x = false) : m.dropWhile p = m := by
  cases m with
  | nil => rfl
  | cons a t =>
    rw [List.dropWhile_cons, h a rfl]
    simp

/-- Stripping the " Ether" character set from a list that starts and
ends with a digit, suffixed with " Ether", recovers the list exactly. -/
lemma pyStrip_append_ether (l : List Char)
    (hhead : l.head?.any Char.isDigit = true) (hlast : l.getLast?.any Char.isDigit = true) :
    pyStrip (l ++ etherChars) etherChars = l := by
  unfold pyStrip
  have hfront : (l ++ etherChars).dropWhile (etherChars.contains ·) = l ++ etherChars := by
    apply dropWhile_eq_self
    intro x hx
    cases l with
    | nil => simp [Option.any] at hhead
    | cons c t =>
      rw [List.cons_append, List.head?_cons, Option.some.injEq] at hx
      subst hx
      exact digit_contains_false (by simpa [Option.any] using hhead)
  rw [hfront, List.reverse_append, List.dropWhile_append]
  have hether : List.dropWhile (etherChars.contains ·) etherChars.reverse = [] := by decide
  rw [hether]
  simp only [List.isEmpty_nil, if_true]
  have hback : List.dropWhile (etherChars.contains ·) l.reverse = l.reverse := by
    apply dropWhile_eq_self
    intro x hx
    rw [List.head?_reverse] at hx
    rw [hx] at hlast
    exact digit_contains_false (by simpa [Option.any] using hlast)
  rw [hback, List.reverse_reverse]

/-- The modelled float() on a nonempty all-digit list yields the
base-10 value. -/
lemma pythonFloat_digits (l : List Char) (hne : l ≠ []) (hd : ∀ c ∈ l, c.isDigit = true) :
    pythonFloat l = some ((digitsVal l : ℕ) : ℚ) := by
  unfold pythonFloat
  rw [if_pos]
  rw [Bool.and_eq_true, List.all_eq_true]
  exact ⟨by simpa [List.isEmpty_iff] using hne, hd⟩

/-- A successful sequential Option-map relates input and output
positionally. -/
lemma mapOptionList_forall2 {α β : Type} (f : α → Option β) :
    ∀ {l : List α} {t : List β}, mapOptionList f l = some t →
      List.Forall₂ (fun a b => f a = some b) l t := by
  intro l
  induction l with
  | nil =>
    intro t ht
    unfold mapOptionList at ht
    rw [Option.some.injEq] at ht
    subst ht
    exact List.Forall₂.nil
  | cons a l ih =>
    intro t ht
    unfold mapOptionList at ht
    cases hfa : f a with
    | none => rw [hfa] at ht; exact Option.noConfusion ht
    | some b =>
      rw [hfa] at ht
      cases hrest : mapOptionList f l with
      | none => rw [hrest] at ht; exact Option.noConfusion ht
      | some bs =>
        rw [hrest, Option.some.injEq] at ht
        subst ht
        exact List.Forall₂.cons hfa (ih hrest)

/-- What a successful `formatRow` says about the produced record. -/
lemma formatRow_eq_some {r : RawRow} {rec : ExchangeRecord} (h : formatRow r = some rec) :
    rec.address = r.c0 ∧ rec.name = r.c1 ∧
    parseBalance r.c2 = some rec.balance ∧ parseTxnCount r.c3 = some rec.txn_count := by
  unfold formatRow at h
  cases hb : parseBalance r.c2 with
  | none => rw [hb] at h; exact Option.noConfusion h
  | some b =>
    rw [hb] at h
    cases ht : parseTxnCount r.c3 with
    | none => rw [ht] at h; exact Option.noConfusion h
    | some t =>
      rw [ht, Option.some.injEq] at h
      subst h
      exact ⟨rfl, rfl, rfl, rfl⟩

/-- Running the scraping loop over n data pages followed by a stopping
page: every page up to the stop is requested (the stopping page
included), and the collected fragments are the n formatted tables in
page order. -/
lemma scrapeLoop_run (fetch : ℕ → List RawRow) (tbls : ℕ → List ExchangeRecord) :
    ∀ (n page fuel : ℕ),
      (∀ p, page ≤ p → p < page + n →
        2 < (fetch p).length ∧ _format_exchange_data (fetch p) = some (tbls p)) →
      (fetch (page + n)).length ≤ 2 →
      n + 1 ≤ fuel →
      scrapeLoop fetch page fuel =
        (List.range' page (n + 1), Except.ok ((List.range' page n).map tbls)) := by
  intro n
  induction n with
  | zero =>
    intro page fuel _ hstop hfuel
    cases fuel with
    | zero => omega
    | succ f =>
      rw [Nat.add_zero] at hstop
      simp [scrapeLoop, hstop, List.range']
  | succ n ih =>
    intro page fuel hall hstop hfuel
    cases fuel with
    | zero => omega
    | succ f =>
      obtain ⟨hlen, hfmt⟩ := hall page le_rfl (by omega)
      have hrest := ih (page + 1) f
        (fun p hp1 hp2 => hall p (by omega) (by omega))
        (by have hpn : page + 1 + n = page + (n + 1) := by omega
            rw [hpn]; exact hstop)
        (by omega)
      simp only [scrapeLoop]
      rw [if_neg (by omega), hfmt, hrest]
      simp [List.range'_succ, Except.map]

/-- Structure of any scraping-loop run: the requested pages are
consecutive from the start page, and an exception-free run collects
exactly the formatted tables of an initial segment of them, in page
order. -/
lemma scrapeLoop_shape (fetch : ℕ → List RawRow) :
    ∀ (fuel page : ℕ), ∃ m, (scrapeLoop fetch page fuel).1 = List.range' page m ∧
      ∀ frags, (scrapeLoop fetch page fuel).2 = Except.ok frags →
        frags.length ≤ m ∧
        frags = (List.range' page frags.length).map
          (fun p => (_format_exchange_data (fetch p)).getD []) := by
  intro fuel
  induction fuel with
  | zero =>
    intro page
    refine ⟨0, by simp [scrapeLoop], ?_⟩
    intro frags h
    unfold scrapeLoop at h
    rw [Except.ok.injEq] at h
    subst h
    simp
  | succ f ih =>
    intro page
    by_cases hrows : (fetch page).length ≤ 2
    · refine ⟨1, by simp [scrapeLoop, hrows], ?_⟩
      intro frags h
      simp only [scrapeLoop, if_pos hrows] at h
      rw [Except.ok.injEq] at h
      subst h
      simp
    · cases hfmt : _format_exchange_data (fetch page) with
      | none =>
        refine ⟨1, ?_, ?_⟩
        · simp only [scrapeLoop]
          rw [if_neg hrows, hfmt]
          simp [List.range']
        · intro frags h
          simp only [scrapeLoop] at h
          rw [if_neg hrows, hfmt] at h
          exact Except.noConfusion h
      | some tbl =>
        obtain ⟨m, hreq, hok⟩ := ih (page + 1)
        refine ⟨m + 1, ?_, ?_⟩
        · simp only [scrapeLoop]
          rw [if_neg hrows, hfmt]
          show page :: (scrapeLoop fetch (page + 1) f).1 = List.range' page (m + 1)
          rw [hreq, List.range'_succ]
        · intro frags h
          simp only [scrapeLoop] at h
          rw [if_neg hrows, hfmt] at h
          cases hrest : (scrapeLoop fetch (page + 1) f).2 with
          | error e =>
            rw [show (Except.map (tbl :: ·) (scrapeLoop fetch (page + 1) f).2 = Except.ok frags) = _ from rfl, hrest] at h
            exact Except.noConfusion h
          | ok frags' =>
            rw [show (Except.map (tbl :: ·) (scrapeLoop fetch (page + 1) f).2 = Except.ok frags) = _ from rfl, hrest] at h
            rw [show Except.map (tbl :: ·) (Except.ok frags') = Except.ok (tbl :: frags') from rfl,
              Except.ok.injEq] at h
            obtain ⟨hfl, hfr⟩ := hok frags' hrest
            subst h
            refine ⟨by simpa using hfl, ?_⟩
            rw [List.length_cons, List.range'_succ, List.map_cons, hfmt]
            rw [Option.getD_some]
            exact congrArg (tbl :: ·) hfr

/-- Every page the paging loop requests satisfies the cap guard. -/
lemma txnLoop_mem_requests {α : Type} (resp : ℕ → EsResponse α) (offset : ℕ) :
    ∀ (fuel page p : ℕ), p ∈ (txnLoop resp offset page fuel).1 →
      page ≤ p ∧ p * offset ≤ 10000 := by
  intro fuel
  induction fuel with
  | zero =>
    intro page p hp
    simp [txnLoop] at hp
  | succ f ih =>
    intro page p hp
    by_cases hg : page * offset ≤ 10000
    · simp only [txnLoop, if_pos hg] at hp
      cases hst : ((resp page).status != "1") with
      | true =>
        rw [if_pos hst] at hp
        rw [List.mem_singleton] at hp
        subst hp
        exact ⟨le_rfl, hg⟩
      | false =>
        rw [if_neg (by simp [hst])] at hp
        rcases List.mem_cons.mp hp with hpe | hpm
        · subst hpe
          exact ⟨le_rfl, hg⟩
        · obtain ⟨h1, h2⟩ := ih (page + 1) p hpm
          exact ⟨by omega, h2⟩
    · simp [txnLoop, hg] at hp

/-- The requested pages form a consecutive run from the start page. -/
lemma txnLoop_requests_consecutive {α : Type} (resp : ℕ → EsResponse α) (offset : ℕ) :
    ∀ (fuel page : ℕ), ∃ m, (txnLoop resp offset page fuel).1 = List.range' page m := by
  intro fuel
  induction fuel with
  | zero =>
    intro page
    exact ⟨0, by simp [txnLoop]⟩
  | succ f ih =>
    intro page
    by_cases hg : page * offset ≤ 10000
    · cases hst : ((resp page).status != "1") with
      | true =>
        refine ⟨1, ?_⟩
        simp only [txnLoop, if_pos hg]
        rw [if_pos hst]
        simp [List.range']
      | false =>
        obtain ⟨m, hm⟩ := ih (page + 1)
        refine ⟨m + 1, ?_⟩
        simp only [txnLoop, if_pos hg]
        rw [if_neg (by simp [hst])]
        show page :: (txnLoop resp offset (page + 1) f).1 = List.range' page (m + 1)
        rw [hm, List.range'_succ]
    · exact ⟨0, by simp [txnLoop, hg]⟩

/-- Termination of per-address paging: once the fuel covers the
10,000-record cap, the loop's outcome no longer depends on the fuel. -/
lemma txnLoop_stable {α : Type} (resp : ℕ → EsResponse α) (offset : ℕ) (hoff : 0 < offset) :
    ∀ (fuel fuel' page : ℕ),
      10000 / offset + 2 ≤ page + fuel → 10000 / offset + 2 ≤ page + fuel' →
      txnLoop resp offset page fuel = txnLoop resp offset page fuel' := by
  intro fuel
  induction fuel with
  | zero =>
    intro fuel' page h h'
    have hguard : ¬ page * offset ≤ 10000 := by
      intro hle
      have hp : page ≤ 10000 / offset := (Nat.le_div_iff_mul_le hoff).mpr hle
      omega
    cases fuel' with
    | zero => rfl
    | succ f' => simp [txnLoop, hguard]
  | succ f ih =>
    intro fuel' page h h'
    by_cases hguard : page * offset ≤ 10000
    · have hp : page ≤ 10000 / offset := (Nat.le_div_iff_mul_le hoff).mpr hguard
      cases fuel' with
      | zero => omega
      | succ f' =>
        simp only [txnLoop, if_pos hguard]
        cases hst : ((resp page).status != "1") with
        | true => rfl
        | false =>
          simp only [if_neg Bool.false_ne_true]
          rw [ih f' (page + 1) (by omega) (by omega)]
    · cases fuel' with
      | zero => simp [txnLoop, hguard]
      | succ f' => simp [txnLoop, hguard]

/-- If some element of the list maps to the error and every element
maps to that same error or to a success, the sequential traversal
raises that error. -/
lemma mapExceptList_error {α β : Type} (f : α → Except String β) (msg : String)
    (hOnly : ∀ x, f x = Except.error msg ∨ ∃ y, f x = Except.ok y) :
    ∀ (l : List α) (a : α), a ∈ l → f a = Except.error msg →
      mapExceptList f l = Except.error msg := by
  intro l
  induction l with
  | nil =>
    intro a ha
    exact absurd ha (List.not_mem_nil a)
  | cons b l ih =>
    intro a ha hfa
    unfold mapExceptList
    rcases List.mem_cons.mp ha with hab | hal
    · subst hab
      rw [hfa]
    · rcases hOnly b with hb | ⟨y, hy⟩
      · rw [hb]
      · rw [hy, ih a hal hfa]

/-! Claim theorems. -/

/-- C4: for every record table and thresholds, the Exchange Filter
outputs exactly the addresses, in original table order, of the rows
whose balance strictly exceeds the balance threshold and whose
txn_count strictly exceeds the count threshold; with the source's
default thresholds (2000, 400000), records
[(2500, 500000, "A"), (1000, 500000, "B")] yield exactly ["A"]. -/
theorem claim_C4_filter_spec :
    (∀ (df : List ExchangeRecord) (b t : ℚ),
      filter_top_exchange_addresses df b t =
        (df.filter (fun r => decide (b < r.balance) && decide (t < r.txn_count))).map
          ExchangeRecord.address) ∧
    filter_top_exchange_addresses
      [⟨"A", "", 2500, 500000⟩, ⟨"B", "", 1000, 500000⟩]
      defaultMinBalance defaultMinTxnCount = ["A"] := by
  constructor
  · intro df b t
    unfold filter_top_exchange_addresses
    rw [filter_exchange_rows_eq_filter]
  · decide

/-- C8: the Exchange Filter is idempotent — re-applying the row filter
to its own (already-filtered) record output returns the identical
records, and hence the identical address sequence. -/
theorem claim_C8_filter_idempotent :
    ∀ (df : List ExchangeRecord) (b t : ℚ),
      filter_exchange_rows (filter_exchange_rows df b t) b t = filter_exchange_rows df b t ∧
      filter_top_exchange_addresses (filter_exchange_rows df b t) b t =
        filter_top_exchange_addresses df b t := by
  intro df b t
  have h : filter_exchange_rows (filter_exchange_rows df b t) b t = filter_exchange_rows df b t := by
    rw [filter_exchange_rows_eq_filter df b t, filter_exchange_rows_eq_filter, List.filter_filter]
    congr 1
    funext r
    cases hr : (decide (b < r.balance) && decide (t < r.txn_count)) <;> simp [hr]
  refine ⟨h, ?_⟩
  unfold filter_top_exchange_addresses
  rw [h]

/-- C5: for every comma-grouped digit string N, the normalizer maps
"N Ether" to exactly the numeric value of N with the grouping commas
removed, and maps a comma-grouped txn_count string to its numeric
value likewise. -/
theorem claim_C5_normalizer (s : String) (h : isCommaGrouped s.toList = true) :
    parseBalance (s ++ " Ether") =
      some ((digitsVal (s.toList.filter (fun c => c != ',')) : ℕ) : ℚ) ∧
    parseTxnCount s =
      some ((digitsVal (s.toList.filter (fun c => c != ',')) : ℕ) : ℚ) := by
  unfold isCommaGrouped at h
  rw [Bool.and_eq_true, Bool.and_eq_true, Bool.and_eq_true] at h
  obtain ⟨⟨⟨hne, hall⟩, hhead⟩, hlast⟩ := h
  rw [List.all_eq_true] at hall
  have hlist : (s ++ " Ether").toList = s.toList ++ etherChars := by
    show (s ++ " Ether").data = s.data ++ etherChars
    rw [String.data_append]
    rfl
  have hstrip : pyStrip ((s ++ " Ether").toList) etherChars = s.toList := by
    rw [hlist]
    exact pyStrip_append_ether s.toList hhead hlast
  have hfilterdigits : ∀ c ∈ s.toList.filter (fun c => c != ','), c.isDigit = true := by
    intro c hcf
    rw [List.mem_filter] at hcf
    obtain ⟨hcm, hcne⟩ := hcf
    have hor := hall c hcm
    rw [Bool.or_eq_true] at hor
    rcases hor with hdig | hcomma
    · exact hdig
    · rw [bne_iff_ne] at hcne
      exact absurd (by simpa using hcomma) hcne
  have hfne : s.toList.filter (fun c => c != ',') ≠ [] := by
    cases hl : s.toList with
    | nil =>
      rw [hl] at hne
      exact absurd hne (by decide)
    | cons c t =>
      have hc : c.isDigit = true := by
        rw [hl] at hhead
        simpa [Option.any] using hhead
      have hcne : (c != ',') = true := by
        rw [bne_iff_ne]
        intro hceq
        rw [hceq] at hc
        exact absurd hc (by decide)
      exact List.ne_nil_of_mem (List.mem_filter.mpr ⟨List.mem_cons_self c t, hcne⟩)
  constructor
  · unfold parseBalance
    rw [hstrip]
    exact pythonFloat_digits _ hfne hfilterdigits
  · unfold parseTxnCount
    exact pythonFloat_digits _ hfne hfilterdigits

/-- C5 witness: the spec's own example, "12,345 Ether" normalizing to
12345, via the general theorem at s = "12,345". -/
theorem claim_C5_normalizer_witness :
    isCommaGrouped "12,345".toList = true ∧
    parseBalance ("12,345" ++ " Ether") = some 12345 ∧
    parseTxnCount "12,345" = some 12345 := by
  refine ⟨by decide, ?_, ?_⟩
  · exact (claim_C5_normalizer "12,345" (by decide)).1.trans (by decide)
  · exact (claim_C5_normalizer "12,345" (by decide)).2.trans (by decide)

/-- C6: the table builder discards exactly the first row regardless of
its content, and maps every remaining row positionally onto the fields
address, name, balance, txn_count (the numeric cells normalized); a
successful build of an n-row input yields exactly n - 1 records. -/
theorem claim_C6_table_builder :
    (∀ (r r' : RawRow) (rows : List RawRow),
      _format_exchange_data (r :: rows) = _format_exchange_data (r' :: rows)) ∧
    (∀ (rows : List RawRow) (tbl : List ExchangeRecord),
      _format_exchange_data rows = some tbl →
        tbl.length = rows.length - 1 ∧
        List.Forall₂
          (fun r rec => rec.address = r.c0 ∧ rec.name = r.c1 ∧
            parseBalance r.c2 = some rec.balance ∧ parseTxnCount r.c3 = some rec.txn_count)
          (rows.drop 1) tbl) := by
  constructor
  · intro r r' rows
    rfl
  · intro rows tbl ht
    unfold _format_exchange_data at ht
    have h2 := (mapOptionList_forall2 formatRow ht).imp (fun _ _ h => formatRow_eq_some h)
    refine ⟨?_, h2⟩
    rw [← h2.length_eq, List.length_drop]

/-- C6 witness: a concrete 3-row input (header plus 2 data rows)
builds successfully and yields exactly 2 records, via the general
theorem. -/
theorem claim_C6_table_builder_witness :
    _format_exchange_data sampleRows = some sampleTable ∧
    sampleTable.length = sampleRows.length - 1 := by
  have h : _format_exchange_data sampleRows = some sampleTable := by decide
  exact ⟨h, (claim_C6_table_builder.2 sampleRows sampleTable h).1⟩

/-- C3: pagination stops exactly at the first page yielding 2 or fewer
extracted rows: pages 1..k are requested (k the stopping page, so a
3-full-page source stopping at page 4 issues exactly 4 requests), the
stopping page and all later pages are excluded, and the result is the
concatenation of the k - 1 earlier pages' records. -/
theorem claim_C3_scraper_stop (fetch : ℕ → List RawRow) (tbls : ℕ → List ExchangeRecord)
    (k fuel : ℕ) (hk : 1 ≤ k) (hfuel : k ≤ fuel)
    (hdata : ∀ p, 1 ≤ p → p < k →
      2 < (fetch p).length ∧ _format_exchange_data (fetch p) = some (tbls p))
    (hstop : (fetch k).length ≤ 2) :
    (scrape_exchanges fetch fuel).1 = List.range' 1 k ∧
    (2 ≤ k → (scrape_exchanges fetch fuel).2 =
      Except.ok (((List.range' 1 (k - 1)).map tbls).flatten)) := by
  have hk1 : 1 + (k - 1) = k := by omega
  have hrun := scrapeLoop_run fetch tbls (k - 1) 1 fuel
    (fun p hp1 hp2 => hdata p hp1 (by omega))
    (by rw [hk1]; exact hstop)
    (by omega)
  unfold scrape_exchanges
  rw [hrun]
  constructor
  · have : k - 1 + 1 = k := by omega
    rw [this]
  · intro h2
    have hne : ((List.range' 1 (k - 1)).map tbls).isEmpty = false := by
      rw [List.isEmpty_eq_false_iff_exists_mem]
      exact ⟨tbls 1, List.mem_map_of_mem tbls (List.mem_range'_1.mpr ⟨le_rfl, by omega⟩)⟩
    simp [Except.bind, hne]

/-- C3 witness: a stub source with 3 full pages then a 2-row page —
exactly 4 requests, and the result is exactly the 3 pages' records. -/
theorem claim_C3_scraper_stop_witness :
    (scrape_exchanges stubFetch 10).1 = List.range' 1 4 ∧
    (2 ≤ 4 → (scrape_exchanges stubFetch 10).2 =
      Except.ok (((List.range' 1 (4 - 1)).map (fun _ => sampleTable)).flatten)) :=
  claim_C3_scraper_stop stubFetch (fun _ => sampleTable) 4 10 (by decide) (by decide)
    (by intro p h1 h2
        interval_cases p <;> exact ⟨by decide, by decide⟩)
    (by decide)

/-- C9: if the very first listing page already yields 2 or fewer rows,
the scraper does not return an empty Exchange Table — the concluding
concatenation is applied to an empty fragment list and raises
(ValueError, "No objects to concatenate") after that single request. -/
theorem claim_C9_scraper_empty_raise (fetch : ℕ → List RawRow) (fuel : ℕ)
    (hfuel : 1 ≤ fuel) (h : (fetch 1).length ≤ 2) :
    (scrape_exchanges fetch fuel).1 = [1] ∧
    (scrape_exchanges fetch fuel).2 = Except.error concatEmptyMsg := by
  cases fuel with
  | zero => omega
  | succ f => simp [scrape_exchanges, scrapeLoop, h, Except.bind]

/-- C9 witness: a stub source whose first page has no rows — one
request, then the raised concatenation error. -/
theorem claim_C9_scraper_empty_raise_witness :
    (scrape_exchanges emptyFetch 5).1 = [1] ∧
    (scrape_exchanges emptyFetch 5).2 = Except.error concatEmptyMsg :=
  claim_C9_scraper_empty_raise emptyFetch 5 (by decide) (by decide)

/-- C7: the scraper's requests are consecutive pages starting at 1 (so
the output is assembled in strictly page-ascending order), at least one
page fetch is always attempted, and any exception-free output table is
the concatenation, in page order and preserving within-page row order,
of the formatted tables of an initial run of the fetched pages. -/
theorem claim_C7_scraper_order (fetch : ℕ → List RawRow) (fuel : ℕ) (hfuel : 1 ≤ fuel) :
    1 ≤ (scrape_exchanges fetch fuel).1.length ∧
    (scrape_exchanges fetch fuel).1 = List.range' 1 (scrape_exchanges fetch fuel).1.length ∧
    1 ∈ (scrape_exchanges fetch fuel).1 ∧
    ∀ tbl, (scrape_exchanges fetch fuel).2 = Except.ok tbl →
      (scrapedFragments fetch fuel).length ≤ (scrape_exchanges fetch fuel).1.length ∧
      tbl = ((List.range' 1 (scrapedFragments fetch fuel).length).map
        (fun p => (_format_exchange_data (fetch p)).getD [])).flatten := by
  obtain ⟨m, hreq, hok⟩ := scrapeLoop_shape fetch fuel 1
  have hfst : (scrape_exchanges fetch fuel).1 = (scrapeLoop fetch 1 fuel).1 := rfl
  have hne : (scrapeLoop fetch 1 fuel).1 ≠ [] := by
    cases fuel with
    | zero => omega
    | succ f =>
      by_cases hrows : (fetch 1).length ≤ 2
      · simp [scrapeLoop, hrows]
      · cases hfmt : _format_exchange_data (fetch 1) with
        | none =>
          simp only [scrapeLoop]
          rw [if_neg hrows, hfmt]
          simp
        | some tbl =>
          simp only [scrapeLoop]
          rw [if_neg hrows, hfmt]
          simp
  have hm1 : 1 ≤ m := by
    by_contra hm
    have hm0 : m = 0 := by omega
    rw [hreq, hm0] at hne
    exact hne rfl
  have hlen : (scrape_exchanges fetch fuel).1.length = m := by
    rw [hfst, hreq, List.length_range']
  refine ⟨by omega, ?_, ?_, ?_⟩
  · rw [hlen, hfst, hreq]
  · rw [hfst, hreq]
    exact List.mem_range'_1.mpr ⟨le_rfl, by omega⟩
  · intro tbl htbl
    unfold scrape_exchanges at htbl
    simp only at htbl
    cases hres : (scrapeLoop fetch 1 fuel).2 with
    | error e =>
      rw [hres] at htbl
      exact Except.noConfusion htbl
    | ok frags =>
      rw [hres] at htbl
      simp only [Except.bind] at htbl
      by_cases hemp : frags.isEmpty
      · rw [if_pos hemp] at htbl
        exact Except.noConfusion htbl
      · rw [if_neg hemp, Except.ok.injEq] at htbl
        obtain ⟨hfl, hfr⟩ := hok frags hres
        have hfrag : scrapedFragments fetch fuel = frags := by
          unfold scrapedFragments
          rw [hres]
          rfl
        rw [hfrag, hlen]
        refine ⟨hfl, ?_⟩
        rw [← htbl]
        exact congrArg List.flatten hfr

/-- C7 witness: the stub source — requests are pages 1..4 in order,
1 is requested, and the output is the page-ordered concatenation of
the three formatted fragments. -/
theorem claim_C7_scraper_order_witness :
    1 ≤ (scrape_exchanges stubFetch 10).1.length ∧
    (scrape_exchanges stubFetch 10).1 =
      List.range' 1 (scrape_exchanges stubFetch 10).1.length ∧
    1 ∈ (scrape_exchanges stubFetch 10).1 ∧
    ((scrapedFragments stubFetch 10).length ≤ (scrape_exchanges stubFetch 10).1.length ∧
      stubResult = ((List.range' 1 (scrapedFragments stubFetch 10).length).map
        (fun p => (_format_exchange_data (stubFetch p)).getD [])).flatten) := by
  have h := claim_C7_scraper_order stubFetch 10 (by decide)
  exact ⟨h.1, h.2.1, h.2.2.1, h.2.2.2 stubResult (by rfl)⟩

/-- C2: the fetcher's hard stop — a request for page p is issued only
when p * offset ≤ 10000; with offset 5000 at most 2 pages are requested
and page 3 is never requested, regardless of response status; and with
positive offset the paging loop has terminated once the modelling fuel
covers the cap (its outcome is fuel-independent from there on). -/
theorem claim_C2_fetcher_hard_stop :
    (∀ (α : Type) (resp : ℕ → EsResponse α) (offset page fuel p : ℕ),
      p ∈ (txnLoop resp offset page fuel).1 → p * offset ≤ 10000) ∧
    (∀ (α : Type) (resp : ℕ → EsResponse α) (fuel : ℕ),
      (txnLoop resp 5000 1 fuel).1.length ≤ 2 ∧ 3 ∉ (txnLoop resp 5000 1 fuel).1) ∧
    (∀ (α : Type) (resp : ℕ → EsResponse α) (offset : ℕ), 0 < offset →
      ∀ (page fuel fuel' : ℕ),
        10000 / offset + 2 ≤ page + fuel → 10000 / offset + 2 ≤ page + fuel' →
        txnLoop resp offset page fuel = txnLoop resp offset page fuel') := by
  refine ⟨?_, ?_, ?_⟩
  · intro α resp offset page fuel p hp
    exact (txnLoop_mem_requests resp offset fuel page p hp).2
  · intro α resp fuel
    obtain ⟨m, hm⟩ := txnLoop_requests_consecutive resp 5000 fuel 1
    have hmle : m ≤ 2 := by
      by_contra hgt
      have h3 : 3 ∈ (txnLoop resp 5000 1 fuel).1 := by
        rw [hm]
        exact List.mem_range'_1.mpr ⟨by omega, by omega⟩
      have := (txnLoop_mem_requests resp 5000 fuel 1 3 h3).2
      omega
    constructor
    · rw [hm, List.length_range']
      exact hmle
    · intro h3
      have := (txnLoop_mem_requests resp 5000 fuel 1 3 h3).2
      omega
  · intro α resp offset hoff page fuel fuel' h h'
    exact txnLoop_stable resp offset hoff fuel fuel' page h h'

/-- C2 witness: an always-succeeding stub endpoint at offset 5000 —
page 1 passes the guard, at most two pages requested, page 3 never,
and the loop outcome is stable across larger fuels. -/
theorem claim_C2_fetcher_hard_stop_witness :
    1 * 5000 ≤ 10000 ∧
    ((txnLoop okResp 5000 1 3).1.length ≤ 2 ∧ 3 ∉ (txnLoop okResp 5000 1 3).1) ∧
    txnLoop okResp 5000 1 3 = txnLoop okResp 5000 1 7 :=
  ⟨claim_C2_fetcher_hard_stop.1 ℕ okResp 5000 1 3 1 (by decide),
   claim_C2_fetcher_hard_stop.2.1 ℕ okResp 3,
   claim_C2_fetcher_hard_stop.2.2 ℕ okResp 5000 (by decide) 1 3 7 (by decide) (by decide)⟩

/-- C1 counterexample: a stub endpoint returning status "0" on every
call. The claim predicts no raise and an empty Transaction Table per
address; in fact `pd.concat` of the empty page list raises ValueError,
so `get_txn_history` propagates an exception and never produces the
claimed mapping. -/
theorem claim_C1_counterexample :
    get_txn_history ["0xA", "0xB"] failResp 5000 = Except.error concatEmptyMsg ∧
    get_txn_history ["0xA", "0xB"] failResp 5000 ≠
      Except.ok [("0xA", ([] : List ℕ)), ("0xB", ([] : List ℕ))] := by
  have h : get_txn_history ["0xA", "0xB"] failResp 5000 = Except.error concatEmptyMsg := by rfl
  refine ⟨h, ?_⟩
  rw [h]
  intro hcontra
  exact Except.noConfusion hcontra

/-- C1 amended: when an address's first transaction-list request
reports a status other than "1", paging for it stops with that single
request issued and no page collected — but the fetcher then raises
(ValueError from concatenating an empty page list) instead of
recording an empty Transaction Table and proceeding to the next
address. -/
theorem claim_C1_soft_stop_raises (α : Type) (addresses : List String)
    (resp : String → ℕ → EsResponse α) (offset : ℕ) (a : String)
    (hmem : a ∈ addresses) (hfail : (resp a 1).status ≠ "1") (hoff : offset ≤ 10000) :
    (fetch_address_txns (resp a) offset).1 = [1] ∧
    (fetch_address_txns (resp a) offset).2 = [] ∧
    get_txn_history addresses resp offset = Except.error concatEmptyMsg := by
  have hfa : fetch_address_txns (resp a) offset = ([1], []) := by
    unfold fetch_address_txns txnFuel
    simp only [txnLoop]
    rw [if_pos (by omega : 1 * offset ≤ 10000), if_pos (by simpa [bne_iff_ne] using hfail)]
  refine ⟨by rw [hfa], by rw [hfa], ?_⟩
  unfold get_txn_history
  apply mapExceptList_error _ concatEmptyMsg _ addresses a hmem
  · rw [hfa]
    rfl
  · intro x
    by_cases hx : (fetch_address_txns (resp x) offset).2.isEmpty
    · left
      simp only [hx, if_pos]
    · right
      refine ⟨(x, (fetch_address_txns (resp x) offset).2.flatten), ?_⟩
      rw [if_neg hx]

/-- C1 amended witness: one address, failing stub endpoint, offset
5000 — exactly one request, no pages, and the raised concatenation
error, via the amended theorem. -/
theorem claim_C1_soft_stop_raises_witness :
    ("0xC" ∈ ["0xC"]) ∧ (failResp "0xC" 1).status ≠ "1" ∧ 5000 ≤ 10000 ∧
    ((fetch_address_txns (failResp "0xC") 5000).1 = [1] ∧
     (fetch_address_txns (failResp "0xC") 5000).2 = [] ∧
     get_txn_history ["0xC"] failResp 5000 = Except.error concatEmptyMsg) :=
  ⟨by decide, by decide, by decide,
   claim_C1_soft_stop_raises ℕ ["0xC"] failResp 5000 "0xC" (by decide) (by decide) (by decide)⟩

/-- C10: the unit-label removal is a character-set strip from both
ends, not an exact-literal suffix match — balance inputs not of the
form "digits Ether", such as "Ether 5" and "5 rethE", normalize
successfully to the numeric value of their digit core. -/
theorem claim_C10_strip_is_charset :
    parseBalance "Ether 5" = some 5 ∧
    parseBalance "5 rethE" = some 5 ∧
    pyStrip "Ether 5".toList etherChars = ['5'] := by
  decide

end EthPrice
